import Mathlib

set_option maxRecDepth 4000

/-!
Shallow embedding of `src/packages/coding-agent/src/core/export-html/ansi-to-html.ts`.

The source is a single-pass ANSI-escape-to-HTML transcoder.  Every definition
below is translated directly from the corresponding TypeScript declaration:
JavaScript strings become Lean `String`/`List Char`, `parseInt` on digit
strings becomes `Nat` accumulation, `Number.prototype.toString(16)` becomes a
fueled base conversion, and the `matchAll`-driven scan loop becomes a fueled
lexer producing tokens that are then folded over an explicit `StyleState`.
-/

/-- ANSI 256-color palette (first 16 colors - standard + bright).
Mirrors the `ANSI_COLORS_16` record; a missing key is `none` (JS `undefined`). -/
def ANSI_COLORS_16 (n : Nat) : Option String :=
  if n = 0 then some "#000000"
  else if n = 1 then some "#cd0000"
  else if n = 2 then some "#00cd00"
  else if n = 3 then some "#cdcd00"
  else if n = 4 then some "#0000ee"
  else if n = 5 then some "#cd00cd"
  else if n = 6 then some "#00cdcd"
  else if n = 7 then some "#e5e5e5"
  else if n = 8 then some "#7f7f7f"
  else if n = 9 then some "#ff0000"
  else if n = 10 then some "#00ff00"
  else if n = 11 then some "#ffff00"
  else if n = 12 then some "#5c5cff"
  else if n = 13 then some "#ff00ff"
  else if n = 14 then some "#00ffff"
  else if n = 15 then some "#ffffff"
  else none

/-- Digit character in a given base, as produced by JS `Number.toString(base)`
(lowercase letters for digits above 9). -/
def digitCh (d : Nat) : Char :=
  if d < 10 then Char.ofNat (48 + d) else Char.ofNat (87 + d)

/-- Fueled positional rendering of a natural number in the given base,
most significant digit first.  `fuel = n + 1` always suffices. -/
def natToBaseAux (base : Nat) : Nat → Nat → List Char → List Char
  | 0, _, acc => acc
  | fuel + 1, n, acc =>
    if n < base then digitCh n :: acc
    else natToBaseAux base fuel (n / base) (digitCh (n % base) :: acc)

/-- JS `n.toString(16)` for a non-negative integer. -/
def natToHex (n : Nat) : String := String.mk (natToBaseAux 16 (n + 1) n [])

/-- JS decimal rendering of a non-negative integer (template `${n}`). -/
def natToDec (n : Nat) : String := String.mk (natToBaseAux 10 (n + 1) n [])

/-- JS `s.padStart(2, "0")`. -/
def padStart2 (s : String) : String :=
  if s.length < 2 then String.mk (List.replicate (2 - s.length) '0') ++ s else s

/-- The local `toHex` lambda inside `ansi256ToHex`:
`(c === 0 ? 0 : 55 + c * 40).toString(16).padStart(2, "0")`. -/
def cubeHexComp (c : Nat) : String :=
  padStart2 (natToHex (if c = 0 then 0 else 55 + c * 40))

/-- Convert 256-color index to hex color (`ansi256ToHex`). -/
def ansi256ToHex (code : Nat) : String :=
  if code < 16 then (ANSI_COLORS_16 code).getD "#ffffff"
  else if code < 232 then
    -- 216 colors (6x6x6 cube)
    let n := code - 16
    "#" ++ cubeHexComp (n / 36) ++ cubeHexComp ((n % 36) / 6) ++ cubeHexComp (n % 6)
  else
    -- 24 grayscale colors
    let hex := padStart2 (natToHex ((code - 232) * 10 + 8))
    "#" ++ hex ++ hex ++ hex

/-- The `StyleState` interface: all six fields are optional (JS `undefined`
is `none`; the code only ever stores `true` in the boolean fields). -/
structure StyleState where
  fg : Option String := none
  bg : Option String := none
  bold : Option Bool := none
  italic : Option Bool := none
  underline : Option Bool := none
  dim : Option Bool := none
deriving DecidableEq, Repr

/-- JS truthiness of an optional string (`undefined` and `""` are falsy). -/
def strTruthy : Option String → Bool
  | none => false
  | some s => !s.isEmpty

/-- JS truthiness of an optional boolean. -/
def boolTruthy : Option Bool → Bool
  | none => false
  | some b => b

/-- The `styles` array built inside `openSpan`, in source push order. -/
def styleList (st : StyleState) : List String :=
  (if strTruthy st.fg then ["color:" ++ st.fg.getD ""] else [])
  ++ (if strTruthy st.bg then ["background-color:" ++ st.bg.getD ""] else [])
  ++ (if boolTruthy st.bold then ["font-weight:bold"] else [])
  ++ (if boolTruthy st.italic then ["font-style:italic"] else [])
  ++ (if boolTruthy st.underline then ["text-decoration:underline"] else [])
  ++ (if boolTruthy st.dim then ["opacity:0.6"] else [])

/-- JS `Array.prototype.join(sep)`. -/
def joinSep (sep : String) : List String → String
  | [] => ""
  | [x] => x
  | x :: xs => x ++ sep ++ joinSep sep xs

/-- The `openSpan` closure: an opening span tag when at least one style
declaration is active, otherwise the empty string. -/
def openSpan (st : StyleState) : String :=
  let styles := styleList st
  if styles.length > 0 then "<span style=\"" ++ joinSep ";" styles ++ "\">" else ""

/-- The `hasStyle` closure. -/
def hasStyle (st : StyleState) : Bool :=
  strTruthy st.fg || strTruthy st.bg || boolTruthy st.bold || boolTruthy st.italic
    || boolTruthy st.underline || boolTruthy st.dim

/-- JS `s.replace(/c/g, r)` for a single-character pattern. -/
def replaceAllChar (c : Char) (r : List Char) (l : List Char) : List Char :=
  l.foldr (fun x acc => if x = c then r ++ acc else x :: acc) []

/-- The `escapeHtml` closure: chained global replacement of `&`, `<`, `>`
(in that order) by their HTML entities. -/
def escapeHtml (s : String) : String :=
  String.mk (replaceAllChar '>' "&gt;".data
    (replaceAllChar '<' "&lt;".data
      (replaceAllChar '&' "&amp;".data s.data)))

/-- Single-character view of `escapeHtml` (used only in proofs). -/
def escChar (c : Char) : List Char :=
  if c = '&' then "&amp;".data
  else if c = '<' then "&lt;".data
  else if c = '>' then "&gt;".data
  else [c]

/-- Flattened single-pass escaping; proved equal to the chained replacement. -/
def escList (l : List Char) : List Char :=
  l.foldr (fun c acc => escChar c ++ acc) []

/-- Tokens produced by scanning for the regex `\x1b\[([0-9;]*)m`:
either one literal character (no match starts here) or one full escape
sequence with its captured parameter string. -/
inductive Tok where
  | lit (c : Char)
  | esc (params : String)
deriving DecidableEq, Repr

/-- Is a token a literal character? -/
def isLitTok : Tok → Bool
  | .lit _ => true
  | .esc _ => false

/-- A character the regex class `[0-9;]` accepts. -/
def isParamChar (c : Char) : Bool := c.isDigit || c = ';'

/-- After `ESC [`, try to read `[0-9;]*` followed by `m`; returns the
captured parameter characters and the remainder of the input. -/
def tryEscParams : List Char → Option (List Char × List Char)
  | [] => none
  | c :: rest =>
    if c = 'm' then some ([], rest)
    else if isParamChar c then
      match tryEscParams rest with
      | some (ps, r) => some (c :: ps, r)
      | none => none
    else none

/-- Try to match the regex `\x1b\[([0-9;]*)m` immediately after its leading
`ESC` character: requires `[`, then params, then `m`. -/
def tryEsc : List Char → Option (String × List Char)
  | '[' :: rest =>
    match tryEscParams rest with
    | some (ps, r) => some (String.mk ps, r)
    | none => none
  | _ => none

/-- Fueled scanner reproducing `text.matchAll(ansiRegex)`: at each position
either a full escape sequence matches (and scanning resumes after it), or the
current character is literal text.  `fuel = input length` suffices. -/
def lexAnsiF : Nat → List Char → List Tok
  | 0, _ => []
  | _ + 1, [] => []
  | fuel + 1, c :: rest =>
    if c = '\x1b' then
      match tryEsc rest with
      | some (p, r) => Tok.esc p :: lexAnsiF fuel r
      | none => Tok.lit c :: lexAnsiF fuel rest
    else Tok.lit c :: lexAnsiF fuel rest

/-- Scan a whole line into tokens. -/
def lexAnsi (l : List Char) : List Tok := lexAnsiF l.length l

/-- JS `String.prototype.split(";")` on the captured parameter characters. -/
def splitSemi : List Char → List (List Char)
  | [] => [[]]
  | c :: rest =>
    if c = ';' then [] :: splitSemi rest
    else
      match splitSemi rest with
      | g :: gs => (c :: g) :: gs
      | [] => [[c]]

/-- `Number.parseInt(s, 10)` on a non-empty all-digit string. -/
def decOfDigits (g : List Char) : Nat :=
  g.foldl (fun a c => a * 10 + (c.toNat - 48)) 0

/-- `match[1].split(";").map((s) => (s === "" ? 0 : Number.parseInt(s, 10)))`. -/
def parseCodes (p : String) : List Nat :=
  (splitSemi p.data).map (fun g => if g = [] then 0 else decOfDigits g)

/-- The truecolor value `` `rgb(${r},${g},${b})` ``. -/
def rgbString (r g b : Nat) : String :=
  "rgb(" ++ natToDec r ++ "," ++ natToDec g ++ "," ++ natToDec b ++ ")"

/-- Effect of one SGR code that consumes no sub-parameters (every branch of
the interpreter's `if`/`else if` chain except the two extended-color
selectors `38`/`48`, which are handled with their lookahead in
`applyCodes`).  Unlisted codes leave the state unchanged. -/
def applySimple (st : StyleState) (code : Nat) : StyleState :=
  if code = 0 then {}
  else if code = 1 then { st with bold := some true }
  else if code = 2 then { st with dim := some true }
  else if code = 3 then { st with italic := some true }
  else if code = 4 then { st with underline := some true }
  else if code = 22 then { st with bold := none, dim := none }
  else if code = 23 then { st with italic := none }
  else if code = 24 then { st with underline := none }
  else if 30 ≤ code ∧ code ≤ 37 then { st with fg := ANSI_COLORS_16 (code - 30) }
  else if code = 39 then { st with fg := none }
  else if 40 ≤ code ∧ code ≤ 47 then { st with bg := ANSI_COLORS_16 (code - 40) }
  else if code = 49 then { st with bg := none }
  else if 90 ≤ code ∧ code ≤ 97 then { st with fg := ANSI_COLORS_16 (code - 90 + 8) }
  else if 100 ≤ code ∧ code ≤ 107 then { st with bg := ANSI_COLORS_16 (code - 100 + 8) }
  else st

/-- The inner `while (i < codes.length)` interpreter loop.  `38`/`48`
followed by `5;N` consume two extra codes, followed by `2;R;G;B` four; a
`38`/`48` whose lookahead matches neither consumes only itself (its trailing
parameters are then interpreted as further codes, as in the source). -/
def applyCodes : StyleState → List Nat → StyleState
  | st, [] => st
  | st, 38 :: 5 :: n :: rest => applyCodes { st with fg := some (ansi256ToHex n) } rest
  | st, 38 :: 2 :: r :: g :: b :: rest => applyCodes { st with fg := some (rgbString r g b) } rest
  | st, 48 :: 5 :: n :: rest => applyCodes { st with bg := some (ansi256ToHex n) } rest
  | st, 48 :: 2 :: r :: g :: b :: rest => applyCodes { st with bg := some (rgbString r g b) } rest
  | st, code :: rest => applyCodes (applySimple st code) rest

/-- Emission of one run of literal text (`before`, or the trailing
`remaining`): skipped when empty, span-wrapped when the current state has any
active style, plain escaped text otherwise. -/
def emitText (st : StyleState) (txt : String) : String :=
  if txt.isEmpty then ""
  else if hasStyle st then openSpan st ++ escapeHtml txt ++ "</span>"
  else escapeHtml txt

/-- Fold the token stream: literal characters accumulate (reversed) in
`pending`; each escape sequence first emits the pending text under the
current state, then updates the state with its parsed codes. -/
def convertToks : StyleState → List Char → List Tok → String
  | st, pending, [] => emitText st (String.mk pending.reverse)
  | st, pending, Tok.lit c :: toks => convertToks st (c :: pending) toks
  | st, pending, Tok.esc p :: toks =>
    emitText st (String.mk pending.reverse)
      ++ convertToks (applyCodes st (parseCodes p)) [] toks

/-- `ansiToHtml`: convert ANSI-escaped text to HTML. -/
def ansiToHtml (text : String) : String :=
  convertToks {} [] (lexAnsi text.data)

/-- `ansiLinesToHtml`: convert an array of ANSI lines to HTML joined by `<br>`. -/
def ansiLinesToHtml (lines : List String) : String :=
  joinSep "<br>" (lines.map ansiToHtml)

/-- Does the lookahead after a `38`/`48` selector match one of the two
extended-color argument forms the interpreter consumes (`5;N` or `2;R;G;B`)? -/
def extArgsTaken : List Nat → Bool
  | 5 :: _ :: _ => true
  | 2 :: _ :: _ :: _ :: _ => true
  | _ => false

/-- The set of SGR codes listed in the interpreter's mutation table; every
other code falls through every branch and leaves the state unchanged. -/
def sgrHandled (code : Nat) : Prop :=
  code = 0 ∨ code = 1 ∨ code = 2 ∨ code = 3 ∨ code = 4 ∨ code = 22 ∨ code = 23
    ∨ code = 24 ∨ (30 ≤ code ∧ code ≤ 37) ∨ code = 38 ∨ code = 39
    ∨ (40 ≤ code ∧ code ≤ 47) ∨ code = 48 ∨ code = 49
    ∨ (90 ≤ code ∧ code ≤ 97) ∨ (100 ≤ code ∧ code ≤ 107)

instance : DecidablePred sgrHandled := fun code => by
  unfold sgrHandled; infer_instance

/-- Spec-side formula for one 6x6x6-cube channel: value `0` if the channel
component is `0` and `55 + 40*component` otherwise, rendered as zero-padded
2-digit hex (stated from the spec's words, to be compared with the code). -/
def specCubeComponent (c : Nat) : String :=
  padStart2 (natToHex (if c = 0 then 0 else 55 + 40 * c))

/-- Spec-side formula for one grayscale-ramp channel of index 232-255:
gray level `(code-232)*10 + 8` as zero-padded 2-digit hex. -/
def specGray (code : Nat) : String :=
  padStart2 (natToHex ((code - 232) * 10 + 8))

/-- The characters of one token, as they occurred in the input. -/
def tokChars : Tok → List Char
  | .lit c => [c]
  | .esc p => '\x1b' :: '[' :: p.data ++ ['m']

/-- Concatenated characters of a token stream. -/
def toksChars (ts : List Tok) : List Char :=
  ts.foldr (fun t acc => tokChars t ++ acc) []

/-- Number of positions at which `pat` occurs as a contiguous substring. -/
def countSub (pat : List Char) : List Char → Nat
  | [] => 0
  | c :: rest => (if pat.isPrefixOf (c :: rest) then 1 else 0) + countSub pat rest

/-- A character that may appear inside a span's `style` attribute without
ending the attribute or opening a tag. -/
def safeChar (c : Char) : Prop := c ≠ '<' ∧ c ≠ '"'

instance : DecidablePred safeChar := fun c => by
  unfold safeChar; infer_instance

/-- Every color value stored in the state is attribute-safe. -/
def styleInv (st : StyleState) : Prop :=
  (∀ v, st.fg = some v → ∀ c ∈ v.data, safeChar c)
    ∧ (∀ v, st.bg = some v → ∀ c ∈ v.data, safeChar c)

/-- Well-formed span discipline of an output character stream: a sequence of
plain runs (no `<` at all) and complete spans, where each span is an opening
tag carrying a non-empty attribute-safe style declaration, a single run of
escaped text (again with no `<`), and an immediately following closing tag.
Spans never nest and are never left open. -/
inductive SpanShape : List Char → Prop where
  | nil : SpanShape []
  | plain (t u : List Char) : '<' ∉ t → SpanShape u → SpanShape (t ++ u)
  | span (sty txt u : List Char) : sty ≠ [] → (∀ c ∈ sty, safeChar c) → '<' ∉ txt →
      SpanShape u →
      SpanShape ("<span style=\"".data ++ sty ++ "\">".data ++ txt ++ "</span>".data ++ u)

/-- The tail of an HTML entity for one of the three escaped characters. -/
def entityTail (l : List Char) : Prop :=
  "amp;".data <+: l ∨ "lt;".data <+: l ∨ "gt;".data <+: l

/-! ## Helper lemmas -/

theorem String.data_app (a b : String) : (a ++ b).data = a.data ++ b.data := rfl

theorem String.eq_of_data (a b : String) (h : a.data = b.data) : a = b := by
  cases a; cases b; exact congrArg String.mk h

theorem applyCodes_cons (st : StyleState) (code : Nat) (rest : List Nat)
    (h38 : code ≠ 38) (h48 : code ≠ 48) :
    applyCodes st (code :: rest) = applyCodes (applySimple st code) rest := by
  rw [applyCodes.eq_def]
  split <;> simp_all

theorem applySimple_unhandled (st : StyleState) (code : Nat) (h : ¬ sgrHandled code) :
    applySimple st code = st := by
  unfold sgrHandled at h
  unfold applySimple
  repeat rw [if_neg (by omega)]

/-! ## C4: 256-color cube and grayscale ramp -/

/-- C4: the indexed-color resolver maps 16-231 through the 6x6x6 cube
decomposition with per-channel value `0` when the component is `0` and
`55 + 40*component` otherwise, zero-padded 2-digit hex; and maps 232-255 to
gray level `(code-232)*10 + 8` repeated across all three channels.  In
particular index 196 resolves to `#ff0000` and index 244 to `#808080`. -/
theorem c4_cube_and_gray :
    (∀ code : Nat, 16 ≤ code → code ≤ 231 →
      ansi256ToHex code =
        "#" ++ specCubeComponent ((code - 16) / 36)
          ++ specCubeComponent (((code - 16) % 36) / 6)
          ++ specCubeComponent ((code - 16) % 6))
    ∧ (∀ code : Nat, 232 ≤ code → code ≤ 255 →
      ansi256ToHex code = "#" ++ specGray code ++ specGray code ++ specGray code)
    ∧ ansi256ToHex 196 = "#ff0000" ∧ ansi256ToHex 244 = "#808080" := by
  refine ⟨?_, ?_, by decide, by decide⟩
  · intro code h1 h2
    unfold ansi256ToHex specCubeComponent cubeHexComp
    rw [if_neg (by omega), if_pos (by omega)]
    simp [Nat.mul_comm]
  · intro code h1 h2
    unfold ansi256ToHex specGray
    rw [if_neg (by omega), if_neg (by omega)]

/-- Witness for C4 at the two concrete palette indices named by the claim. -/
theorem c4_witness :
    ansi256ToHex 196 =
      "#" ++ specCubeComponent ((196 - 16) / 36)
        ++ specCubeComponent (((196 - 16) % 36) / 6)
        ++ specCubeComponent ((196 - 16) % 6)
    ∧ ansi256ToHex 244 = "#" ++ specGray 244 ++ specGray 244 ++ specGray 244 :=
  ⟨c4_cube_and_gray.1 196 (by decide) (by decide),
   c4_cube_and_gray.2.1 244 (by decide) (by decide)⟩

/-! ## C5: red then reset -/

/-- C5: `ESC[31m x ESC[0m y` renders "x" in a span whose foreground is
palette red (`ANSI_COLORS_16 1 = #cd0000`) and "y" bare; SGR 0 resets every
field of the state to unset. -/
theorem c5_reset :
    ansiToHtml "\x1b[31mx\x1b[0my" = "<span style=\"color:#cd0000\">x</span>" ++ "y"
    ∧ ANSI_COLORS_16 1 = some "#cd0000"
    ∧ ∀ st : StyleState, applyCodes st [0] = {} :=
  ⟨by decide, by decide, fun _ => rfl⟩

/-! ## C9: multi-line join -/

/-- C9: `ansiLinesToHtml` is exactly the per-line conversions joined with the
fixed `<br>` marker; in particular on `["a","b"]` it is
`ansiToHtml "a" ++ "<br>" ++ ansiToHtml "b"`. -/
theorem c9_join :
    (∀ lines : List String, ansiLinesToHtml lines = joinSep "<br>" (lines.map ansiToHtml))
    ∧ (∀ a b : String, ansiLinesToHtml [a, b] = ansiToHtml a ++ "<br>" ++ ansiToHtml b)
    ∧ ansiLinesToHtml ["a", "b"] = ansiToHtml "a" ++ "<br>" ++ ansiToHtml "b" :=
  ⟨fun _ => rfl, fun _ _ => rfl, rfl⟩

/-! ## C3: truecolor channels are not clamped -/

/-- C3 counterexample: the parser accepts the out-of-range truecolor channel
300 and passes it through unclamped, so the resulting color value is not an
rgb triple with channels in [0,255]. -/
theorem c3_counterexample :
    ansiToHtml "\x1b[38;2;300;0;0mx" = "<span style=\"color:rgb(300,0,0)\">x</span>"
    ∧ 255 < 300 := by
  constructor <;> decide

/-- C3 amended: an accepted truecolor sequence `38;2;R;G;B` (resp. `48;...`)
stores exactly `rgb(R,G,B)` with the parsed channel values passed through
unchanged — no clamping and no range validation is performed. -/
theorem c3_amended (st : StyleState) (r g b : Nat) (rest : List Nat) :
    applyCodes st (38 :: 2 :: r :: g :: b :: rest)
      = applyCodes { st with fg := some (rgbString r g b) } rest
    ∧ applyCodes st (48 :: 2 :: r :: g :: b :: rest)
      = applyCodes { st with bg := some (rgbString r g b) } rest :=
  ⟨rfl, rfl⟩

/-! ## C1: malformed extended-color selectors -/

/-- C1 counterexample: after the malformed selector `38;2;10;20` (truecolor
with a missing blue channel) the state is not unchanged — the leftover
sub-parameter `2` is re-interpreted as SGR "dim", and the following text is
rendered inside an `opacity:0.6` span. -/
theorem c1_counterexample :
    ansiToHtml "\x1b[38;2;10;20mx" = "<span style=\"opacity:0.6\">x</span>"
    ∧ applyCodes {} [38, 2, 10, 20] ≠ ({} : StyleState) := by
  constructor <;> decide

/-- C1 amended: a malformed extended-color selector (`38`/`48` whose
lookahead matches neither `5;N` nor `2;R;G;B`) itself mutates nothing and
raises nothing — but it consumes only its own position, so its trailing
parameters are re-interpreted as independent SGR codes (which may mutate the
state). -/
theorem c1_amended (st : StyleState) (rest : List Nat) (h : extArgsTaken rest = false) :
    applyCodes st (38 :: rest) = applyCodes st rest
    ∧ applyCodes st (48 :: rest) = applyCodes st rest := by
  constructor <;>
  · rw [applyCodes.eq_def]
    split
    · simp_all
    · rename_i heq; rw [List.cons.injEq] at heq; rw [heq.2] at h; simp [extArgsTaken] at h
    · rename_i heq; rw [List.cons.injEq] at heq; rw [heq.2] at h; simp [extArgsTaken] at h
    · rename_i heq; rw [List.cons.injEq] at heq; rw [heq.2] at h; simp [extArgsTaken] at h
    · rename_i heq; rw [List.cons.injEq] at heq; rw [heq.2] at h; simp [extArgsTaken] at h
    · rename_i heq; injection heq with h1 h2; subst h1; subst h2; rfl

/-- Witness for C1's amended theorem at the counterexample's argument list. -/
theorem c1_amended_witness :
    extArgsTaken [2, 10, 20] = false
    ∧ applyCodes {} (38 :: [2, 10, 20]) = applyCodes {} [2, 10, 20]
    ∧ applyCodes {} (48 :: [2, 10, 20]) = applyCodes {} [2, 10, 20] :=
  ⟨by decide, (c1_amended {} [2, 10, 20] (by decide)).1, (c1_amended {} [2, 10, 20] (by decide)).2⟩

theorem tryEscParams_sound :
    ∀ l ps r, tryEscParams l = some (ps, r) → l = ps ++ 'm' :: r := by
  intro l
  induction l with
  | nil => intro ps r h; simp [tryEscParams] at h
  | cons c rest ih =>
    intro ps r h
    unfold tryEscParams at h
    split at h
    · rename_i hc
      simp at h
      obtain ⟨rfl, rfl⟩ := h
      simp [hc]
    · split at h
      · split at h
        · rename_i heq
          simp at h
          obtain ⟨rfl, rfl⟩ := h
          simpa using ih _ _ heq
        · simp at h
      · simp at h

theorem tryEsc_sound :
    ∀ l p r, tryEsc l = some (p, r) → l = '[' :: p.data ++ 'm' :: r := by
  intro l p r h
  unfold tryEsc at h
  split at h
  · split at h
    · rename_i heq
      simp at h
      obtain ⟨rfl, rfl⟩ := h
      simpa using tryEscParams_sound _ _ _ heq
    · simp at h
  · simp at h

theorem tryEsc_len {l : List Char} {p : String} {r : List Char}
    (h : tryEsc l = some (p, r)) : r.length + 2 ≤ l.length := by
  have h2 := tryEsc_sound l p r h
  subst h2
  simp only [List.length_cons, List.length_append]
  omega

theorem lexAnsiF_irrel :
    ∀ f1 l f2, l.length ≤ f1 → l.length ≤ f2 → lexAnsiF f1 l = lexAnsiF f2 l := by
  intro f1
  induction f1 with
  | zero =>
    intro l f2 h1 _
    have : l = [] := List.eq_nil_of_length_eq_zero (Nat.le_zero.mp h1)
    subst this; cases f2 <;> rfl
  | succ f ih =>
    intro l f2 h1 h2
    cases l with
    | nil => cases f2 <;> rfl
    | cons c rest =>
      rw [List.length_cons] at h1 h2
      cases f2 with
      | zero => omega
      | succ f2' =>
        show lexAnsiF (f + 1) (c :: rest) = lexAnsiF (f2' + 1) (c :: rest)
        unfold lexAnsiF
        by_cases hc : c = '\x1b'
        · rw [if_pos hc, if_pos hc]
          cases htry : tryEsc rest with
          | none =>
            show Tok.lit c :: lexAnsiF f rest = Tok.lit c :: lexAnsiF f2' rest
            exact congrArg _ (ih rest f2' (by omega) (by omega))
          | some pr =>
            obtain ⟨p, r⟩ := pr
            have hlen := tryEsc_len htry
            show Tok.esc p :: lexAnsiF f r = Tok.esc p :: lexAnsiF f2' r
            exact congrArg _ (ih r f2' (by omega) (by omega))
        · rw [if_neg hc, if_neg hc]
          show Tok.lit c :: lexAnsiF f rest = Tok.lit c :: lexAnsiF f2' rest
          exact congrArg _ (ih rest f2' (by omega) (by omega))

theorem toksChars_cons (t : Tok) (ts : List Tok) :
    toksChars (t :: ts) = tokChars t ++ toksChars ts := rfl

theorem lexAnsiF_chars :
    ∀ f l, l.length ≤ f → toksChars (lexAnsiF f l) = l := by
  intro f
  induction f with
  | zero =>
    intro l h1
    have : l = [] := List.eq_nil_of_length_eq_zero (Nat.le_zero.mp h1)
    subst this; rfl
  | succ f ih =>
    intro l h1
    cases l with
    | nil => rfl
    | cons c rest =>
      rw [List.length_cons] at h1
      show toksChars (lexAnsiF (f + 1) (c :: rest)) = c :: rest
      unfold lexAnsiF
      by_cases hc : c = '\x1b'
      · rw [if_pos hc]
        cases htry : tryEsc rest with
        | none =>
          show toksChars (Tok.lit c :: lexAnsiF f rest) = c :: rest
          rw [toksChars_cons, ih rest (by omega)]
          rfl
        | some pr =>
          obtain ⟨p, r⟩ := pr
          have hlen := tryEsc_len htry
          have hsound := tryEsc_sound rest p r htry
          show toksChars (Tok.esc p :: lexAnsiF f r) = c :: rest
          rw [toksChars_cons, ih r (by omega)]
          rw [hsound, hc]
          simp [tokChars]
      · rw [if_neg hc]
        show toksChars (Tok.lit c :: lexAnsiF f rest) = c :: rest
        rw [toksChars_cons, ih rest (by omega)]
        rfl

theorem lexAnsi_chars (l : List Char) : toksChars (lexAnsi l) = l :=
  lexAnsiF_chars l.length l (Nat.le_refl _)

theorem isEmpty_mk_cons (c : Char) (cs : List Char) :
    (String.mk (c :: cs)).isEmpty = false := by
  rw [Bool.eq_false_iff]
  intro hc
  have h1 := (String.isEmpty_iff _).mp hc
  have h2 : c :: cs = ([] : List Char) := congrArg String.data h1
  exact List.cons_ne_nil c cs h2

theorem replA_cons (c : Char) (r : List Char) (x : Char) (l : List Char) :
    replaceAllChar c r (x :: l) =
      if x = c then r ++ replaceAllChar c r l else x :: replaceAllChar c r l := rfl

theorem replA_append (c : Char) (r a b : List Char) :
    replaceAllChar c r (a ++ b) = replaceAllChar c r a ++ replaceAllChar c r b := by
  induction a with
  | nil => rfl
  | cons x a ih =>
    rw [List.cons_append, replA_cons, replA_cons, ih]
    by_cases hx : x = c
    · rw [if_pos hx, if_pos hx, List.append_assoc]
    · rw [if_neg hx, if_neg hx]; rfl

theorem escList_cons (c : Char) (l : List Char) :
    escList (c :: l) = escChar c ++ escList l := rfl

theorem escapeHtml_data (s : String) : (escapeHtml s).data = escList s.data := by
  obtain ⟨l⟩ := s
  show replaceAllChar '>' "&gt;".data
    (replaceAllChar '<' "&lt;".data (replaceAllChar '&' "&amp;".data l)) = escList l
  induction l with
  | nil => rfl
  | cons x l ih =>
    by_cases h1 : x = '&'
    · subst h1
      calc replaceAllChar '>' "&gt;".data (replaceAllChar '<' "&lt;".data
              (replaceAllChar '&' "&amp;".data ('&' :: l)))
          = replaceAllChar '>' "&gt;".data (replaceAllChar '<' "&lt;".data
              ("&amp;".data ++ replaceAllChar '&' "&amp;".data l)) := rfl
        _ = "&amp;".data ++ replaceAllChar '>' "&gt;".data (replaceAllChar '<' "&lt;".data
              (replaceAllChar '&' "&amp;".data l)) := by rw [replA_append, replA_append]; rfl
        _ = "&amp;".data ++ escList l := by rw [ih]
        _ = escList ('&' :: l) := rfl
    · by_cases h2 : x = '<'
      · subst h2
        calc replaceAllChar '>' "&gt;".data (replaceAllChar '<' "&lt;".data
                (replaceAllChar '&' "&amp;".data ('<' :: l)))
            = replaceAllChar '>' "&gt;".data ("&lt;".data ++ replaceAllChar '<' "&lt;".data
                (replaceAllChar '&' "&amp;".data l)) := rfl
          _ = "&lt;".data ++ replaceAllChar '>' "&gt;".data (replaceAllChar '<' "&lt;".data
                (replaceAllChar '&' "&amp;".data l)) := by rw [replA_append]; rfl
          _ = "&lt;".data ++ escList l := by rw [ih]
          _ = escList ('<' :: l) := rfl
      · by_cases h3 : x = '>'
        · subst h3
          calc replaceAllChar '>' "&gt;".data (replaceAllChar '<' "&lt;".data
                  (replaceAllChar '&' "&amp;".data ('>' :: l)))
              = replaceAllChar '>' "&gt;".data ('>' :: replaceAllChar '<' "&lt;".data
                  (replaceAllChar '&' "&amp;".data l)) := rfl
            _ = "&gt;".data ++ replaceAllChar '>' "&gt;".data (replaceAllChar '<' "&lt;".data
                  (replaceAllChar '&' "&amp;".data l)) := rfl
            _ = "&gt;".data ++ escList l := by rw [ih]
            _ = escList ('>' :: l) := rfl
        · rw [replA_cons, if_neg h1, replA_cons, if_neg h2, replA_cons, if_neg h3, ih]
          rw [escList_cons]
          show x :: escList l = escChar x ++ escList l
          unfold escChar
          rw [if_neg h1, if_neg h2, if_neg h3]
          rfl

theorem escList_safe (l : List Char) : ∀ c ∈ escList l, c ≠ '<' ∧ c ≠ '>' := by
  induction l with
  | nil => intro c hc; simp [escList] at hc
  | cons x l ih =>
    intro c hc
    rw [escList_cons, List.mem_append] at hc
    rcases hc with hc | hc
    · unfold escChar at hc
      by_cases h1 : x = '&'
      · rw [if_pos h1] at hc
        have : "&amp;".data = ['&', 'a', 'm', 'p', ';'] := rfl
        rw [this] at hc
        simp at hc
        rcases hc with rfl | rfl | rfl | rfl | rfl <;> decide
      · rw [if_neg h1] at hc
        by_cases h2 : x = '<'
        · rw [if_pos h2] at hc
          have : "&lt;".data = ['&', 'l', 't', ';'] := rfl
          rw [this] at hc
          simp at hc
          rcases hc with rfl | rfl | rfl | rfl <;> decide
        · rw [if_neg h2] at hc
          by_cases h3 : x = '>'
          · rw [if_pos h3] at hc
            have : "&gt;".data = ['&', 'g', 't', ';'] := rfl
            rw [this] at hc
            simp at hc
            rcases hc with rfl | rfl | rfl | rfl <;> decide
          · rw [if_neg h3] at hc
            simp at hc
            subst hc
            exact ⟨h2, h3⟩
    · exact ih c hc

theorem escList_id (l : List Char) (h : ∀ c ∈ l, c ≠ '&' ∧ c ≠ '<' ∧ c ≠ '>') :
    escList l = l := by
  induction l with
  | nil => rfl
  | cons x l ih =>
    have hx := h x (List.mem_cons_self x l)
    rw [escList_cons]
    unfold escChar
    rw [if_neg hx.1, if_neg hx.2.1, if_neg hx.2.2]
    rw [ih (fun c hc => h c (List.mem_cons_of_mem _ hc))]
    rfl

theorem convertToks_lits :
    ∀ (toks : List Tok) (st : StyleState) (pending : List Char),
      (∀ t ∈ toks, isLitTok t = true) → hasStyle st = false →
      convertToks st pending toks = escapeHtml (String.mk (pending.reverse ++ toksChars toks)) := by
  intro toks
  induction toks with
  | nil =>
    intro st pending _ hst
    show emitText st (String.mk pending.reverse)
        = escapeHtml (String.mk (pending.reverse ++ toksChars []))
    have hnil : pending.reverse ++ toksChars [] = pending.reverse := List.append_nil _
    rw [hnil]
    cases hrev : pending.reverse with
    | nil => rfl
    | cons c cs =>
      unfold emitText
      rw [isEmpty_mk_cons, hst]
      simp
  | cons t toks ih =>
    intro st pending hall hst
    have ht := hall t (List.mem_cons_self t toks)
    cases t with
    | esc p => simp [isLitTok] at ht
    | lit c =>
      show convertToks st (c :: pending) toks
          = escapeHtml (String.mk (pending.reverse ++ toksChars (Tok.lit c :: toks)))
      rw [toksChars_cons]
      rw [ih st (c :: pending) (fun t htm => hall t (List.mem_cons_of_mem _ htm)) hst]
      congr 1
      rw [List.reverse_cons, List.append_assoc]
      rfl

theorem ansiToHtml_all_lit (s : String) (h : (lexAnsi s.data).all isLitTok = true) :
    ansiToHtml s = escapeHtml s := by
  unfold ansiToHtml
  rw [convertToks_lits (lexAnsi s.data) {} [] (by simpa [List.all_eq_true] using h) rfl]
  rw [lexAnsi_chars]
  rfl

theorem lexAnsi_shift99 (l : List Char) :
    lexAnsi ('\x1b' :: '[' :: '9' :: '9' :: 'm' :: l)
      = Tok.esc (String.mk ['9', '9']) :: lexAnsi l := by
  show Tok.esc (String.mk ['9', '9']) :: lexAnsiF (l.length + 4) l
      = Tok.esc (String.mk ['9', '9']) :: lexAnsiF l.length l
  exact congrArg _ (lexAnsiF_irrel (l.length + 4) l l.length (by omega) (by omega))

theorem c7_unknown_noop :
    (∀ (st : StyleState) (code : Nat) (rest : List Nat), ¬ sgrHandled code →
      applyCodes st (code :: rest) = applyCodes st rest)
    ∧ ∀ text : String, ansiToHtml ("\x1b[99m" ++ text) = ansiToHtml text := by
  constructor
  · intro st code rest h
    rw [applyCodes_cons st code rest (by unfold sgrHandled at h; omega)
      (by unfold sgrHandled at h; omega)]
    rw [applySimple_unhandled st code h]
  · intro text
    unfold ansiToHtml
    have hdata : ("\x1b[99m" ++ text).data = '\x1b' :: '[' :: '9' :: '9' :: 'm' :: text.data := rfl
    rw [hdata, lexAnsi_shift99]
    rfl

theorem c7_witness :
    ¬ sgrHandled 99
    ∧ applyCodes {} (99 :: []) = applyCodes {} []
    ∧ ansiToHtml ("\x1b[99m" ++ "x") = ansiToHtml "x" :=
  ⟨by decide, c7_unknown_noop.1 {} 99 [] (by decide), c7_unknown_noop.2 "x"⟩

theorem c2_total (s : String) :
    (∃ t : String, ansiToHtml s = t)
    ∧ ((lexAnsi s.data).all isLitTok = true → ansiToHtml s = escapeHtml s) :=
  ⟨⟨_, rfl⟩, ansiToHtml_all_lit s⟩

theorem c2_witness :
    (lexAnsi "a\x1b[31".data).all isLitTok = true
    ∧ ansiToHtml "a\x1b[31" = escapeHtml "a\x1b[31"
    ∧ escapeHtml "a\x1b[31" = "a\x1b[31" :=
  ⟨by decide, (c2_total "a\x1b[31").2 (by decide), by decide⟩

theorem c8_identity (s : String)
    (h1 : ∀ c ∈ s.data, c ≠ '&' ∧ c ≠ '<' ∧ c ≠ '>')
    (h2 : (lexAnsi s.data).all isLitTok = true) :
    ansiToHtml s = s := by
  rw [ansiToHtml_all_lit s h2]
  apply String.eq_of_data
  rw [escapeHtml_data]
  exact escList_id s.data h1

theorem c8_witness :
    (∀ c ∈ "hello".data, c ≠ '&' ∧ c ≠ '<' ∧ c ≠ '>')
    ∧ (lexAnsi "hello".data).all isLitTok = true
    ∧ ansiToHtml "hello" = "hello" :=
  ⟨by decide, by decide, c8_identity "hello" (by decide) (by decide)⟩

theorem escChar_amp (x : Char) (l1 t : List Char) (h : escChar x = l1 ++ '&' :: t) :
    l1 = [] ∧ (t = ['a', 'm', 'p', ';'] ∨ t = ['l', 't', ';'] ∨ t = ['g', 't', ';']) := by
  unfold escChar at h
  by_cases h1 : x = '&'
  · rw [if_pos h1] at h
    have hlit : "&amp;".data = ['&', 'a', 'm', 'p', ';'] := rfl
    rw [hlit] at h
    rcases l1 with _ | ⟨a, _ | ⟨b, _ | ⟨d, _ | ⟨e, _ | ⟨f, l1'⟩⟩⟩⟩⟩ <;> simp_all
  · rw [if_neg h1] at h
    by_cases h2 : x = '<'
    · rw [if_pos h2] at h
      have hlit : "&lt;".data = ['&', 'l', 't', ';'] := rfl
      rw [hlit] at h
      rcases l1 with _ | ⟨a, _ | ⟨b, _ | ⟨d, _ | ⟨e, l1'⟩⟩⟩⟩ <;> simp_all
    · rw [if_neg h2] at h
      by_cases h3 : x = '>'
      · rw [if_pos h3] at h
        have hlit : "&gt;".data = ['&', 'g', 't', ';'] := rfl
        rw [hlit] at h
        rcases l1 with _ | ⟨a, _ | ⟨b, _ | ⟨d, _ | ⟨e, l1'⟩⟩⟩⟩ <;> simp_all
      · rw [if_neg h3] at h
        rcases l1 with _ | ⟨a, l1'⟩ <;> simp_all

theorem escList_amp :
    ∀ l l1 l2, escList l = l1 ++ '&' :: l2 → entityTail l2 := by
  intro l
  induction l with
  | nil =>
    intro l1 l2 h
    exfalso
    have h0 : ([] : List Char) = l1 ++ '&' :: l2 := h
    rcases l1 with _ | ⟨a, l1'⟩ <;> exact List.cons_ne_nil _ _ h0.symm
  | cons x l ih =>
    intro l1 l2 h
    rw [escList_cons, List.append_eq_append_iff] at h
    rcases h with ⟨a', _, ha2⟩ | ⟨c', hc1, hc2⟩
    · exact ih a' l2 ha2
    · cases c' with
      | nil =>
        apply ih [] l2
        simpa using hc2.symm
      | cons y c'' =>
        rw [List.cons_append, List.cons.injEq] at hc2
        obtain ⟨hy, hl2⟩ := hc2
        rw [← hy] at hc1
        obtain ⟨_, htails⟩ := escChar_amp x l1 c'' hc1
        rcases htails with rfl | rfl | rfl
        · exact Or.inl (by rw [hl2]; exact List.prefix_append _ _)
        · exact Or.inr (Or.inl (by rw [hl2]; exact List.prefix_append _ _))
        · exact Or.inr (Or.inr (by rw [hl2]; exact List.prefix_append _ _))

theorem c6_escaping :
    (∀ s : String, ∀ c ∈ (escapeHtml s).data, c ≠ '<' ∧ c ≠ '>')
    ∧ (∀ (s : String) (l1 l2 : List Char), (escapeHtml s).data = l1 ++ '&' :: l2 → entityTail l2)
    ∧ countSub "<script>".data (ansiToHtml "<script>").data = 0 := by
  refine ⟨?_, ?_, by decide⟩
  · intro s c hc
    rw [escapeHtml_data] at hc
    exact escList_safe s.data c hc
  · intro s l1 l2 h
    rw [escapeHtml_data] at h
    exact escList_amp s.data l1 l2 h

theorem c6_witness :
    ('h' ≠ '<' ∧ 'h' ≠ '>') ∧ entityTail "amp;x".data :=
  ⟨c6_escaping.1 "h" 'h' (by decide), c6_escaping.2.1 "&x" [] "amp;x".data (by decide)⟩

theorem all_safe_of_check (l : List Char)
    (h : (l.all fun c => decide (safeChar c)) = true) : ∀ c ∈ l, safeChar c := by
  intro c hc
  have := List.all_eq_true.mp h c hc
  simpa using this

theorem digitCh_safe (d : Nat) (hd : d < 16) : safeChar (digitCh d) := by
  interval_cases d <;> decide

theorem natToBaseAux_safe (base : Nat) (hb0 : 0 < base) (hb : base ≤ 16) :
    ∀ fuel n acc, (∀ c ∈ acc, safeChar c) → ∀ c ∈ natToBaseAux base fuel n acc, safeChar c := by
  intro fuel
  induction fuel with
  | zero => intro n acc hacc c hc; exact hacc c hc
  | succ f ih =>
    intro n acc hacc c hc
    unfold natToBaseAux at hc
    by_cases hn : n < base
    · rw [if_pos hn] at hc
      rcases List.mem_cons.mp hc with rfl | hmem
      · exact digitCh_safe n (by omega)
      · exact hacc c hmem
    · rw [if_neg hn] at hc
      refine ih (n / base) (digitCh (n % base) :: acc) ?_ c hc
      intro c' hc'
      rcases List.mem_cons.mp hc' with rfl | hmem
      · exact digitCh_safe _ (Nat.lt_of_lt_of_le (Nat.mod_lt n hb0) hb)
      · exact hacc c' hmem

theorem natToHex_safe (n : Nat) : ∀ c ∈ (natToHex n).data, safeChar c := by
  intro c hc
  exact natToBaseAux_safe 16 (by omega) (by omega) (n + 1) n []
    (fun c' hc' => absurd hc' (List.not_mem_nil c')) c hc

theorem natToDec_safe (n : Nat) : ∀ c ∈ (natToDec n).data, safeChar c := by
  intro c hc
  exact natToBaseAux_safe 10 (by omega) (by omega) (n + 1) n []
    (fun c' hc' => absurd hc' (List.not_mem_nil c')) c hc

theorem padStart2_safe (s : String) (h : ∀ c ∈ s.data, safeChar c) :
    ∀ c ∈ (padStart2 s).data, safeChar c := by
  intro c hc
  unfold padStart2 at hc
  by_cases hl : s.length < 2
  · rw [if_pos hl] at hc
    rw [String.data_app] at hc
    rcases List.mem_append.mp hc with hm | hm
    · have hrep : c ∈ List.replicate (2 - s.length) '0' := hm
      have := List.eq_of_mem_replicate hrep
      subst this; decide
    · exact h c hm
  · rw [if_neg hl] at hc
    exact h c hc

theorem ans16_safe (k : Nat) (v : String) (h : ANSI_COLORS_16 k = some v) :
    ∀ c ∈ v.data, safeChar c := by
  by_cases hk : k < 16
  · interval_cases k <;>
      (injection h with h2; subst h2; exact all_safe_of_check _ (by decide))
  · exfalso
    unfold ANSI_COLORS_16 at h
    iterate 16 rw [if_neg (by omega)] at h
    exact Option.noConfusion h

theorem cubeHexComp_safe (k : Nat) : ∀ c ∈ (cubeHexComp k).data, safeChar c :=
  padStart2_safe _ (natToHex_safe _)

theorem ansi256ToHex_safe (n : Nat) : ∀ c ∈ (ansi256ToHex n).data, safeChar c := by
  intro c hc
  unfold ansi256ToHex at hc
  by_cases h1 : n < 16
  · rw [if_pos h1] at hc
    cases hv : ANSI_COLORS_16 n with
    | none =>
      rw [hv] at hc
      exact all_safe_of_check "#ffffff".data (by decide) c hc
    | some v =>
      rw [hv] at hc
      exact ans16_safe n v hv c hc
  · rw [if_neg h1] at hc
    by_cases h2 : n < 232
    · rw [if_pos h2] at hc
      have hc2 : c ∈ (("#".data ++ (cubeHexComp ((n - 16) / 36)).data)
          ++ (cubeHexComp (((n - 16) % 36) / 6)).data)
          ++ (cubeHexComp ((n - 16) % 6)).data := hc
      rcases List.mem_append.mp hc2 with hm | hm
      · rcases List.mem_append.mp hm with hm2 | hm2
        · rcases List.mem_append.mp hm2 with hm3 | hm3
          · exact all_safe_of_check "#".data (by decide) c hm3
          · exact cubeHexComp_safe _ c hm3
        · exact cubeHexComp_safe _ c hm2
      · exact cubeHexComp_safe _ c hm
    · rw [if_neg h2] at hc
      have hc2 : c ∈ (("#".data ++ (padStart2 (natToHex ((n - 232) * 10 + 8))).data)
          ++ (padStart2 (natToHex ((n - 232) * 10 + 8))).data)
          ++ (padStart2 (natToHex ((n - 232) * 10 + 8))).data := hc
      rcases List.mem_append.mp hc2 with hm | hm
      · rcases List.mem_append.mp hm with hm2 | hm2
        · rcases List.mem_append.mp hm2 with hm3 | hm3
          · exact all_safe_of_check "#".data (by decide) c hm3
          · exact padStart2_safe _ (natToHex_safe _) c hm3
        · exact padStart2_safe _ (natToHex_safe _) c hm2
      · exact padStart2_safe _ (natToHex_safe _) c hm

theorem rgbString_safe (r g b : Nat) : ∀ c ∈ (rgbString r g b).data, safeChar c := by
  intro c hc
  have hc2 : c ∈ (((((("rgb(".data ++ (natToDec r).data) ++ ",".data)
      ++ (natToDec g).data) ++ ",".data) ++ (natToDec b).data) ++ ")".data) := hc
  rcases List.mem_append.mp hc2 with hm | hm
  case inr => exact all_safe_of_check ")".data (by decide) c hm
  rcases List.mem_append.mp hm with hm | hm
  case inr => exact natToDec_safe b c hm
  rcases List.mem_append.mp hm with hm | hm
  case inr => exact all_safe_of_check ",".data (by decide) c hm
  rcases List.mem_append.mp hm with hm | hm
  case inr => exact natToDec_safe g c hm
  rcases List.mem_append.mp hm with hm | hm
  case inr => exact all_safe_of_check ",".data (by decide) c hm
  rcases List.mem_append.mp hm with hm | hm
  case inr => exact natToDec_safe r c hm
  exact all_safe_of_check "rgb(".data (by decide) c hm

theorem applySimple_styleInv (st : StyleState) (code : Nat) (h : styleInv st) :
    styleInv (applySimple st code) := by
  unfold applySimple
  by_cases h0 : code = 0
  · rw [if_pos h0]; exact ⟨fun v hv => Option.noConfusion hv, fun v hv => Option.noConfusion hv⟩
  rw [if_neg h0]
  by_cases h1 : code = 1
  · rw [if_pos h1]; exact h
  rw [if_neg h1]
  by_cases h2 : code = 2
  · rw [if_pos h2]; exact h
  rw [if_neg h2]
  by_cases h3 : code = 3
  · rw [if_pos h3]; exact h
  rw [if_neg h3]
  by_cases h4 : code = 4
  · rw [if_pos h4]; exact h
  rw [if_neg h4]
  by_cases h22 : code = 22
  · rw [if_pos h22]; exact h
  rw [if_neg h22]
  by_cases h23 : code = 23
  · rw [if_pos h23]; exact h
  rw [if_neg h23]
  by_cases h24 : code = 24
  · rw [if_pos h24]; exact h
  rw [if_neg h24]
  by_cases h30 : 30 ≤ code ∧ code ≤ 37
  · rw [if_pos h30]; exact ⟨fun v hv => ans16_safe (code - 30) v hv, h.2⟩
  rw [if_neg h30]
  by_cases h39 : code = 39
  · rw [if_pos h39]; exact ⟨fun v hv => Option.noConfusion hv, h.2⟩
  rw [if_neg h39]
  by_cases h40 : 40 ≤ code ∧ code ≤ 47
  · rw [if_pos h40]; exact ⟨h.1, fun v hv => ans16_safe (code - 40) v hv⟩
  rw [if_neg h40]
  by_cases h49 : code = 49
  · rw [if_pos h49]; exact ⟨h.1, fun v hv => Option.noConfusion hv⟩
  rw [if_neg h49]
  by_cases h90 : 90 ≤ code ∧ code ≤ 97
  · rw [if_pos h90]; exact ⟨fun v hv => ans16_safe (code - 90 + 8) v hv, h.2⟩
  rw [if_neg h90]
  by_cases h100 : 100 ≤ code ∧ code ≤ 107
  · rw [if_pos h100]; exact ⟨h.1, fun v hv => ans16_safe (code - 100 + 8) v hv⟩
  rw [if_neg h100]
  exact h

theorem extSkip (st : StyleState) (rest : List Nat) (h : extArgsTaken rest = false) :
    applyCodes st (38 :: rest) = applyCodes st rest
    ∧ applyCodes st (48 :: rest) = applyCodes st rest := by
  constructor <;>
  · rw [applyCodes.eq_def]
    split
    · simp_all
    · rename_i heq; rw [List.cons.injEq] at heq; rw [heq.2] at h; simp [extArgsTaken] at h
    · rename_i heq; rw [List.cons.injEq] at heq; rw [heq.2] at h; simp [extArgsTaken] at h
    · rename_i heq; rw [List.cons.injEq] at heq; rw [heq.2] at h; simp [extArgsTaken] at h
    · rename_i heq; rw [List.cons.injEq] at heq; rw [heq.2] at h; simp [extArgsTaken] at h
    · rename_i heq; injection heq with ha hb; subst ha; subst hb; rfl

theorem extArgsTaken_shapes (rest : List Nat) (h : extArgsTaken rest = true) :
    (∃ n r2, rest = 5 :: n :: r2) ∨ ∃ r g b r2, rest = 2 :: r :: g :: b :: r2 := by
  unfold extArgsTaken at h
  split at h
  · rename_i n r2; exact Or.inl ⟨n, r2, rfl⟩
  · rename_i r g b r2; exact Or.inr ⟨r, g, b, r2, rfl⟩
  · exact absurd h (by simp)

theorem applyCodes_styleInv_aux :
    ∀ (n : Nat) (codes : List Nat) (st : StyleState),
      codes.length ≤ n → styleInv st → styleInv (applyCodes st codes) := by
  intro n
  induction n with
  | zero =>
    intro codes st hlen h
    have : codes = [] := List.eq_nil_of_length_eq_zero (Nat.le_zero.mp hlen)
    subst this; exact h
  | succ n ih =>
    intro codes st hlen h
    cases codes with
    | nil => exact h
    | cons code rest =>
      rw [List.length_cons] at hlen
      by_cases h38 : code = 38
      · subst h38
        cases hext : extArgsTaken rest with
        | false =>
          rw [(extSkip st rest hext).1]
          exact ih rest st (by omega) h
        | true =>
          rcases extArgsTaken_shapes rest hext with ⟨k, r2, rfl⟩ | ⟨r, g, b, r2, rfl⟩
          · show styleInv (applyCodes { st with fg := some (ansi256ToHex k) } r2)
            refine ih r2 _ (by simp at hlen; omega) ?_
            exact ⟨fun v hv => by injection hv with hv2; subst hv2; exact ansi256ToHex_safe k, h.2⟩
          · show styleInv (applyCodes { st with fg := some (rgbString r g b) } r2)
            refine ih r2 _ (by simp at hlen; omega) ?_
            exact ⟨fun v hv => by injection hv with hv2; subst hv2; exact rgbString_safe r g b, h.2⟩
      · by_cases h48 : code = 48
        · subst h48
          cases hext : extArgsTaken rest with
          | false =>
            rw [(extSkip st rest hext).2]
            exact ih rest st (by omega) h
          | true =>
            rcases extArgsTaken_shapes rest hext with ⟨k, r2, rfl⟩ | ⟨r, g, b, r2, rfl⟩
            · show styleInv (applyCodes { st with bg := some (ansi256ToHex k) } r2)
              refine ih r2 _ (by simp at hlen; omega) ?_
              exact ⟨h.1, fun v hv => by injection hv with hv2; subst hv2; exact ansi256ToHex_safe k⟩
            · show styleInv (applyCodes { st with bg := some (rgbString r g b) } r2)
              refine ih r2 _ (by simp at hlen; omega) ?_
              exact ⟨h.1, fun v hv => by injection hv with hv2; subst hv2; exact rgbString_safe r g b⟩
        · rw [applyCodes_cons st code rest h38 h48]
          exact ih rest _ (by omega) (applySimple_styleInv st code h)

theorem applyCodes_styleInv (st : StyleState) (codes : List Nat) (h : styleInv st) :
    styleInv (applyCodes st codes) :=
  applyCodes_styleInv_aux codes.length codes st (Nat.le_refl _) h

theorem mem_ite_singleton {p : Prop} [Decidable p] {x e : String}
    (h : e ∈ (if p then [x] else [])) : p ∧ e = x := by
  split at h
  · next hp => exact ⟨hp, by simpa using h⟩
  · simp at h

theorem strTruthy_some (o : Option String) (h : strTruthy o = true) :
    ∃ v, o = some v := by
  cases o with
  | none => simp [strTruthy] at h
  | some v => exact ⟨v, rfl⟩

theorem styleList_elems (st : StyleState) (h : styleInv st) :
    ∀ e ∈ styleList st, e.data ≠ [] ∧ ∀ c ∈ e.data, safeChar c := by
  intro e he
  unfold styleList at he
  rcases List.mem_append.mp he with hm | hm
  case inr =>
    obtain ⟨_, rfl⟩ := mem_ite_singleton hm
    exact ⟨by decide, all_safe_of_check _ (by decide)⟩
  rcases List.mem_append.mp hm with hm | hm
  case inr =>
    obtain ⟨_, rfl⟩ := mem_ite_singleton hm
    exact ⟨by decide, all_safe_of_check _ (by decide)⟩
  rcases List.mem_append.mp hm with hm | hm
  case inr =>
    obtain ⟨_, rfl⟩ := mem_ite_singleton hm
    exact ⟨by decide, all_safe_of_check _ (by decide)⟩
  rcases List.mem_append.mp hm with hm | hm
  case inr =>
    obtain ⟨_, rfl⟩ := mem_ite_singleton hm
    exact ⟨by decide, all_safe_of_check _ (by decide)⟩
  rcases List.mem_append.mp hm with hm | hm
  case inr =>
    -- background-color entry
    obtain ⟨htr, rfl⟩ := mem_ite_singleton hm
    obtain ⟨v, hv⟩ := strTruthy_some st.bg htr
    constructor
    · rw [String.data_app]; simp
    · intro c hc
      rw [String.data_app] at hc
      rcases List.mem_append.mp hc with hm2 | hm2
      · exact all_safe_of_check "background-color:".data (by decide) c hm2
      · rw [hv] at hm2
        exact h.2 v hv c hm2
  · -- color entry
    obtain ⟨htr, rfl⟩ := mem_ite_singleton hm
    obtain ⟨v, hv⟩ := strTruthy_some st.fg htr
    constructor
    · rw [String.data_app]; simp
    · intro c hc
      rw [String.data_app] at hc
      rcases List.mem_append.mp hc with hm2 | hm2
      · exact all_safe_of_check "color:".data (by decide) c hm2
      · rw [hv] at hm2
        exact h.1 v hv c hm2

theorem hasStyle_true_iff (st : StyleState) :
    hasStyle st = true ↔ styleList st ≠ [] := by
  unfold hasStyle styleList
  cases hfg : strTruthy st.fg <;> cases hbg : strTruthy st.bg <;>
    cases hb : boolTruthy st.bold <;> cases hi : boolTruthy st.italic <;>
    cases hu : boolTruthy st.underline <;> cases hd : boolTruthy st.dim <;> simp

theorem joinSep_data_ne_nil (sep : String) (L : List String) (hL : L ≠ [])
    (helem : ∀ e ∈ L, e.data ≠ []) : (joinSep sep L).data ≠ [] := by
  cases L with
  | nil => exact absurd rfl hL
  | cons x xs =>
    cases xs with
    | nil => exact helem x (List.mem_cons_self x [])
    | cons y ys =>
      have hx := helem x (List.mem_cons_self x (y :: ys))
      show ((x ++ sep) ++ joinSep sep (y :: ys)).data ≠ []
      rw [String.data_app, String.data_app]
      simp [hx]

theorem joinSep_safe (sep : String) (hsep : ∀ c ∈ sep.data, safeChar c) :
    ∀ (L : List String), (∀ e ∈ L, ∀ c ∈ e.data, safeChar c) →
      ∀ c ∈ (joinSep sep L).data, safeChar c := by
  intro L
  induction L with
  | nil =>
    intro _ c hc
    exact absurd hc (List.not_mem_nil c)
  | cons x xs ih =>
    intro helem c hc
    cases xs with
    | nil => exact helem x (List.mem_cons_self x []) c hc
    | cons y ys =>
      have hc2 : c ∈ (x.data ++ sep.data) ++ (joinSep sep (y :: ys)).data := hc
      rcases List.mem_append.mp hc2 with hm | hm
      · rcases List.mem_append.mp hm with hm2 | hm2
        · exact helem x (List.mem_cons_self x (y :: ys)) c hm2
        · exact hsep c hm2
      · exact ih (fun e he => helem e (List.mem_cons_of_mem x he)) c hm

theorem shape_emit (st : StyleState) (txt : String) (u : List Char)
    (hinv : styleInv st) (hu : SpanShape u) :
    SpanShape ((emitText st txt).data ++ u) := by
  unfold emitText
  by_cases hemp : txt.isEmpty = true
  · rw [if_pos hemp]
    show SpanShape ([] ++ u)
    rw [List.nil_append]; exact hu
  · rw [if_neg hemp]
    by_cases hsty : hasStyle st = true
    · rw [if_pos hsty]
      have hne : styleList st ≠ [] := (hasStyle_true_iff st).mp hsty
      have hlen : (styleList st).length > 0 := List.length_pos.mpr hne
      show SpanShape (((if (styleList st).length > 0 then
          "<span style=\"" ++ joinSep ";" (styleList st) ++ "\">" else "")
            ++ escapeHtml txt ++ "</span>").data ++ u)
      rw [if_pos hlen]
      have hshape : ((("<span style=\"" ++ joinSep ";" (styleList st) ++ "\">")
            ++ escapeHtml txt ++ "</span>").data) ++ u
          = "<span style=\"".data ++ (joinSep ";" (styleList st)).data ++ "\">".data
              ++ (escapeHtml txt).data ++ "</span>".data ++ u := by
        rw [String.data_app, String.data_app, String.data_app, String.data_app]
      rw [hshape]
      refine SpanShape.span _ _ _ ?_ ?_ ?_ hu
      · exact joinSep_data_ne_nil ";" (styleList st) hne
          (fun e he => (styleList_elems st hinv e he).1)
      · exact joinSep_safe ";" (all_safe_of_check _ (by decide)) (styleList st)
          (fun e he => (styleList_elems st hinv e he).2)
      · intro hmem
        rw [escapeHtml_data] at hmem
        exact (escList_safe txt.data '<' hmem).1 rfl
    · rw [if_neg hsty]
      refine SpanShape.plain _ u ?_ hu
      intro hmem
      rw [escapeHtml_data] at hmem
      exact (escList_safe txt.data '<' hmem).1 rfl

theorem shape_main :
    ∀ (toks : List Tok) (st : StyleState) (pending : List Char),
      styleInv st → SpanShape (convertToks st pending toks).data := by
  intro toks
  induction toks with
  | nil =>
    intro st pending hinv
    have h := shape_emit st (String.mk pending.reverse) [] hinv SpanShape.nil
    rw [List.append_nil] at h
    exact h
  | cons t toks ih =>
    intro st pending hinv
    cases t with
    | lit c => exact ih st (c :: pending) hinv
    | esc p =>
      show SpanShape ((emitText st (String.mk pending.reverse)
          ++ convertToks (applyCodes st (parseCodes p)) [] toks).data)
      rw [String.data_app]
      exact shape_emit st _ _ hinv
        (ih (applyCodes st (parseCodes p)) [] (applyCodes_styleInv st (parseCodes p) hinv))

theorem countSub_cons (pat : List Char) (c : Char) (l : List Char) :
    countSub pat (c :: l) = (if pat.isPrefixOf (c :: l) then 1 else 0) + countSub pat l := rfl

theorem countSub_not_head (hd : Char) (p : List Char) (x : Char) (l : List Char)
    (hx : x ≠ hd) : countSub (hd :: p) (x :: l) = countSub (hd :: p) l := by
  rw [countSub_cons]
  have hfalse : (hd :: p).isPrefixOf (x :: l) = false := by
    show (hd == x && p.isPrefixOf l) = false
    rw [beq_eq_false_iff_ne.mpr (Ne.symm hx)]
    rfl
  rw [hfalse]
  simp

theorem countSub_pass (hd : Char) (p : List Char) :
    ∀ (a b : List Char), hd ∉ a → countSub (hd :: p) (a ++ b) = countSub (hd :: p) b := by
  intro a
  induction a with
  | nil => intro b _; rfl
  | cons x a ih =>
    intro b ha
    rw [List.cons_append]
    rw [countSub_not_head hd p x _ (fun hx => ha (by rw [hx]; exact List.mem_cons_self _ _))]
    exact ih b (fun hmem => ha (List.mem_cons_of_mem _ hmem))

theorem pfx_open_true (X : List Char) :
    List.isPrefixOf ['<', 's', 'p', 'a', 'n']
      ('<' :: (['s', 'p', 'a', 'n', ' ', 's', 't', 'y', 'l', 'e', '=', '"'] ++ X)) = true := rfl

theorem pfx_open_at_close (X : List Char) :
    List.isPrefixOf ['<', 's', 'p', 'a', 'n']
      ('<' :: (['/', 's', 'p', 'a', 'n', '>'] ++ X)) = false := rfl

theorem pfx_close_at_open (X : List Char) :
    List.isPrefixOf ['<', '/', 's', 'p', 'a', 'n', '>']
      ('<' :: (['s', 'p', 'a', 'n', ' ', 's', 't', 'y', 'l', 'e', '=', '"'] ++ X)) = false := rfl

theorem pfx_close_true (X : List Char) :
    List.isPrefixOf ['<', '/', 's', 'p', 'a', 'n', '>']
      ('<' :: (['/', 's', 'p', 'a', 'n', '>'] ++ X)) = true := by cases X <;> rfl

theorem span_seg_flat (sty txt u : List Char) :
    "<span style=\"".data ++ sty ++ "\">".data ++ txt ++ "</span>".data ++ u
      = '<' :: (['s', 'p', 'a', 'n', ' ', 's', 't', 'y', 'l', 'e', '=', '"'] ++ (sty
        ++ (['"', '>'] ++ (txt ++ ('<' :: (['/', 's', 'p', 'a', 'n', '>'] ++ u)))))) := by
  have hA : "<span style=\"".data
      = ('<' :: ['s', 'p', 'a', 'n', ' ', 's', 't', 'y', 'l', 'e', '=', '"'] : List Char) := rfl
  have hB : "\">".data = (['"', '>'] : List Char) := rfl
  have hC : "</span>".data = ('<' :: ['/', 's', 'p', 'a', 'n', '>'] : List Char) := rfl
  rw [hA, hB, hC]
  simp [List.cons_append, List.append_assoc]

theorem count_span_open (sty txt u : List Char) (hsty : '<' ∉ sty) (htxt : '<' ∉ txt) :
    countSub ['<', 's', 'p', 'a', 'n']
      ("<span style=\"".data ++ sty ++ "\">".data ++ txt ++ "</span>".data ++ u)
      = 1 + countSub ['<', 's', 'p', 'a', 'n'] u := by
  rw [span_seg_flat]
  rw [countSub_cons, pfx_open_true]
  rw [countSub_pass '<' ['s', 'p', 'a', 'n'] _ _ (by decide)]
  rw [countSub_pass '<' ['s', 'p', 'a', 'n'] _ _ hsty]
  rw [countSub_pass '<' ['s', 'p', 'a', 'n'] _ _ (by decide)]
  rw [countSub_pass '<' ['s', 'p', 'a', 'n'] _ _ htxt]
  rw [countSub_cons, pfx_open_at_close]
  rw [countSub_pass '<' ['s', 'p', 'a', 'n'] _ _ (by decide)]
  simp

theorem count_span_close (sty txt u : List Char) (hsty : '<' ∉ sty) (htxt : '<' ∉ txt) :
    countSub ['<', '/', 's', 'p', 'a', 'n', '>']
      ("<span style=\"".data ++ sty ++ "\">".data ++ txt ++ "</span>".data ++ u)
      = 1 + countSub ['<', '/', 's', 'p', 'a', 'n', '>'] u := by
  rw [span_seg_flat]
  rw [countSub_cons, pfx_close_at_open]
  rw [countSub_pass '<' ['/', 's', 'p', 'a', 'n', '>'] _ _ (by decide)]
  rw [countSub_pass '<' ['/', 's', 'p', 'a', 'n', '>'] _ _ hsty]
  rw [countSub_pass '<' ['/', 's', 'p', 'a', 'n', '>'] _ _ (by decide)]
  rw [countSub_pass '<' ['/', 's', 'p', 'a', 'n', '>'] _ _ htxt]
  rw [countSub_cons, pfx_close_true]
  rw [countSub_pass '<' ['/', 's', 'p', 'a', 'n', '>'] _ _ (by decide)]
  simp

theorem spanShape_count (l : List Char) (h : SpanShape l) :
    countSub ['<', 's', 'p', 'a', 'n'] l = countSub ['<', '/', 's', 'p', 'a', 'n', '>'] l := by
  induction h with
  | nil => rfl
  | plain t u ht _ ih =>
    rw [countSub_pass '<' ['s', 'p', 'a', 'n'] t u ht,
      countSub_pass '<' ['/', 's', 'p', 'a', 'n', '>'] t u ht, ih]
  | span sty txt u hne hsty htxt _ ih =>
    have hsty2 : '<' ∉ sty := fun hm => (hsty '<' hm).1 rfl
    rw [count_span_open sty txt u hsty2 htxt, count_span_close sty txt u hsty2 htxt, ih]

/-! ## C10: span discipline of the output -/

/-- C10: for every input the output consists of plain runs (containing no
raw `<`) and complete spans — each opening tag carries a non-empty style
declaration and is closed immediately after the single escaped text run it
wraps, so scopes never nest and are never left open — and consequently the
number of `<span` openers equals the number of `</span>` closers. -/
theorem c10_span_discipline (s : String) :
    SpanShape (ansiToHtml s).data
    ∧ countSub "<span".data (ansiToHtml s).data
        = countSub "</span>".data (ansiToHtml s).data := by
  have hinv : styleInv ({} : StyleState) :=
    ⟨fun v hv => Option.noConfusion hv, fun v hv => Option.noConfusion hv⟩
  have hshape := shape_main (lexAnsi s.data) {} [] hinv
  refine ⟨hshape, ?_⟩
  have h1 : "<span".data = (['<', 's', 'p', 'a', 'n'] : List Char) := rfl
  have h2 : "</span>".data = (['<', '/', 's', 'p', 'a', 'n', '>'] : List Char) := rfl
  rw [h1, h2]
  exact spanShape_count _ hshape
